import Mathlib

/-!
Verification of the json-to-iceberg ingestion core.

This file gives a shallow embedding of the repository's two central modules
and proves the specified properties about them:

* `src/json_to_iceberg/flatten.py` — `flatten_record` (recursive key
  flattening of nested JSON records) and `_detect_records` (record-set
  detection over an arbitrary parsed JSON root);
* `src/json_to_iceberg/schema.py` — `_resolve_dtype` / `resolve_null_types`
  (recursive replacement of the Polars `Null` placeholder dtype by a default
  concrete dtype, plus the minimal per-column cast) and `dataframe_to_arrow`
  (the nanosecond → microsecond timestamp downgrade on the Arrow schema).

Parsed JSON values are modelled by the inductive `Json`; Polars dtypes by the
inductive `DType`, whose `other` constructor stands for any Polars dtype
outside the shapes the resolver's `isinstance` tests recognise (for example a
fixed-size `Array`): the source never inspects inside such a dtype, so it is
kept opaque.  Arrow schema fields are modelled by `ArrowField`.  External
library primitives (the Polars per-column `cast`, `df.to_arrow()`) are
modelled at their documented interface granularity, marked as such in their
doc comments; everything else is translated directly from the Python source.
-/

/-- A parsed JSON value, as produced by `json.load`: `null`, booleans,
numbers, strings, arrays, and objects (insertion-ordered string-keyed
mappings, as Python dicts are). -/
inductive Json where
  | null : Json
  | bool : Bool → Json
  | num : Int → Json
  | str : String → Json
  | arr : List Json → Json
  | obj : List (String × Json) → Json

mutual
/-- Boolean equality on `Json`, mutually with entry lists (the automatic
`DecidableEq` derivation does not handle this nested inductive). -/
def Json.beq : Json → Json → Bool
  | .null, .null => true
  | .bool a, .bool b => a == b
  | .num a, .num b => a == b
  | .str a, .str b => a == b
  | .arr xs, .arr ys => Json.beqList xs ys
  | .obj kvs, .obj lvs => Json.beqEntries kvs lvs
  | _, _ => false

/-- Elementwise `Json.beq` on arrays. -/
def Json.beqList : List Json → List Json → Bool
  | [], [] => true
  | x :: xs, y :: ys => Json.beq x y && Json.beqList xs ys
  | _, _ => false

/-- Keyed `Json.beq` on object entry lists. -/
def Json.beqEntries : List (String × Json) → List (String × Json) → Bool
  | [], [] => true
  | (n, v) :: kvs, (m, w) :: lvs => n == m && Json.beq v w && Json.beqEntries kvs lvs
  | _, _ => false
end

mutual
theorem Json.eq_of_beq : ∀ {a b : Json}, Json.beq a b = true → a = b
  | .null, .null, _ => rfl
  | .bool a, .bool b, h => by
      simp only [Json.beq, beq_iff_eq] at h; rw [h]
  | .num a, .num b, h => by
      simp only [Json.beq, beq_iff_eq] at h; rw [h]
  | .str a, .str b, h => by
      simp only [Json.beq, beq_iff_eq] at h; rw [h]
  | .arr xs, .arr ys, h => by
      rw [@Json.eqList_of_beq xs ys h]
  | .obj kvs, .obj lvs, h => by
      rw [@Json.eqEntries_of_beq kvs lvs h]
theorem Json.eqList_of_beq : ∀ {xs ys : List Json}, Json.beqList xs ys = true → xs = ys
  | [], [], _ => rfl
  | x :: xs, y :: ys, h => by
      simp only [Json.beqList, Bool.and_eq_true] at h
      rw [Json.eq_of_beq h.1, Json.eqList_of_beq h.2]
theorem Json.eqEntries_of_beq : ∀ {kvs lvs : List (String × Json)},
    Json.beqEntries kvs lvs = true → kvs = lvs
  | [], [], _ => rfl
  | (n, v) :: kvs, (m, w) :: lvs, h => by
      simp only [Json.beqEntries, Bool.and_eq_true, beq_iff_eq] at h
      rw [h.1.1, Json.eq_of_beq h.1.2, Json.eqEntries_of_beq h.2]
end

mutual
theorem Json.beq_refl : ∀ (a : Json), Json.beq a a = true
  | .null => rfl
  | .bool a => by simp [Json.beq]
  | .num a => by simp [Json.beq]
  | .str a => by simp [Json.beq]
  | .arr xs => by simp only [Json.beq]; exact Json.beqList_refl xs
  | .obj kvs => by simp only [Json.beq]; exact Json.beqEntries_refl kvs
theorem Json.beqList_refl : ∀ (xs : List Json), Json.beqList xs xs = true
  | [] => rfl
  | x :: xs => by
      simp only [Json.beqList, Bool.and_eq_true]
      exact ⟨Json.beq_refl x, Json.beqList_refl xs⟩
theorem Json.beqEntries_refl : ∀ (kvs : List (String × Json)), Json.beqEntries kvs kvs = true
  | [] => rfl
  | (n, v) :: kvs => by
      simp only [Json.beqEntries, Bool.and_eq_true, beq_iff_eq]
      exact ⟨⟨trivial, Json.beq_refl v⟩, Json.beqEntries_refl kvs⟩
end

instance : DecidableEq Json := fun a b =>
  if h : Json.beq a b = true then .isTrue (Json.eq_of_beq h)
  else .isFalse (fun he => h (he ▸ Json.beq_refl a))

/-- Python's `isinstance(v, dict)`. -/
def Json.isObj : Json → Bool
  | .obj _ => true
  | _ => false

/-- Python's `isinstance(v, list)`. -/
def Json.isArr : Json → Bool
  | .arr _ => true
  | _ => false

/-- Python's `type(raw).__name__` on a parsed JSON value. -/
def Json.typeName : Json → String
  | .null => "NoneType"
  | .bool _ => "bool"
  | .num _ => "int"
  | .str _ => "str"
  | .arr _ => "list"
  | .obj _ => "dict"

/-- A Polars data type, as walked by `_resolve_dtype` in
`src/json_to_iceberg/schema.py`: the `Null` placeholder, concrete scalar
dtypes (identified by name: "Int64", "String", "Boolean", …), `List(inner)`,
`Struct(fields)` with named ordered fields, and `other` for any Polars dtype
outside these shapes (for example a fixed-size `Array`) — the resolver's
`isinstance` chain never looks inside such a dtype, so it is modelled
opaquely by its name. -/
inductive DType where
  | null : DType
  | scalar : String → DType
  | list : DType → DType
  | struct : List (String × DType) → DType
  | other : String → DType

mutual
/-- Boolean equality on `DType` (Python's `==` on Polars dtypes), mutually
with field lists. -/
def DType.beq : DType → DType → Bool
  | .null, .null => true
  | .scalar a, .scalar b => a == b
  | .list a, .list b => DType.beq a b
  | .struct fs, .struct gs => DType.beqFields fs gs
  | .other a, .other b => a == b
  | _, _ => false

/-- Keyed `DType.beq` on struct field lists. -/
def DType.beqFields : List (String × DType) → List (String × DType) → Bool
  | [], [] => true
  | (n, t) :: fs, (m, s) :: gs => n == m && DType.beq t s && DType.beqFields fs gs
  | _, _ => false
end

mutual
theorem DType.eq_of_beq_dtype : ∀ {a b : DType}, DType.beq a b = true → a = b
  | .null, .null, _ => rfl
  | .scalar a, .scalar b, h => by
      simp only [DType.beq, beq_iff_eq] at h; rw [h]
  | .list a, .list b, h => by
      rw [DType.eq_of_beq_dtype (a := a) (b := b) h]
  | .struct fs, .struct gs, h => by
      rw [@DType.eqFields_of_beq fs gs h]
  | .other a, .other b, h => by
      simp only [DType.beq, beq_iff_eq] at h; rw [h]
theorem DType.eqFields_of_beq : ∀ {fs gs : List (String × DType)},
    DType.beqFields fs gs = true → fs = gs
  | [], [], _ => rfl
  | (n, t) :: fs, (m, s) :: gs, h => by
      simp only [DType.beqFields, Bool.and_eq_true, beq_iff_eq] at h
      rw [h.1.1, DType.eq_of_beq_dtype h.1.2, DType.eqFields_of_beq h.2]
end

mutual
theorem DType.beq_refl_dtype : ∀ (a : DType), DType.beq a a = true
  | .null => rfl
  | .scalar a => by simp [DType.beq]
  | .list a => by simp only [DType.beq]; exact DType.beq_refl_dtype a
  | .struct fs => by simp only [DType.beq]; exact DType.beqFields_refl fs
  | .other a => by simp [DType.beq]
theorem DType.beqFields_refl : ∀ (fs : List (String × DType)), DType.beqFields fs fs = true
  | [] => rfl
  | (n, t) :: fs => by
      simp only [DType.beqFields, Bool.and_eq_true, beq_iff_eq]
      exact ⟨⟨trivial, DType.beq_refl_dtype t⟩, DType.beqFields_refl fs⟩
end

instance : DecidableEq DType := fun a b =>
  if h : DType.beq a b = true then .isTrue (DType.eq_of_beq_dtype h)
  else .isFalse (fun he => h (he ▸ DType.beq_refl_dtype a))

/-- The module-level fallback dtype for all-null columns,
`_DEFAULT_TYPE = pl.Utf8` (Polars' `Utf8` is its `String` dtype). -/
def _DEFAULT_TYPE : DType := .scalar "String"

mutual
/-- Embeds `_resolve_dtype` (schema.py lines 43–56): recursively replace
`Null` with `default` inside any Polars dtype; any dtype that is not `Null`,
`List`, or `Struct` falls through to the final `return dtype` unchanged. -/
def _resolve_dtype (dtype : DType) (default : DType) : DType :=
  match dtype with
  | .null => default
  | .list inner => .list (_resolve_dtype inner default)
  | .struct fields => .struct (_resolve_fields fields default)
  | d => d

/-- The list comprehension inside `_resolve_dtype`'s `Struct` branch:
`[pl.Field(f.name, _resolve_dtype(f.dtype, default)) for f in dtype.fields]`. -/
def _resolve_fields (fields : List (String × DType)) (default : DType) :
    List (String × DType) :=
  match fields with
  | [] => []
  | (n, t) :: rest => (n, _resolve_dtype t default) :: _resolve_fields rest default
end

theorem _resolve_fields_eq_map (fields : List (String × DType)) (default : DType) :
    _resolve_fields fields default
      = fields.map (fun f => (f.1, _resolve_dtype f.2 default)) := by
  induction fields with
  | nil => rfl
  | cons f rest ih => cases f; simp [_resolve_fields, ih]

mutual
/-- Membership in the spec's schema-tree grammar: the tree is built from
Placeholder, Scalar, List, and Struct only (no `other` shape anywhere). -/
def specGrammar : DType → Bool
  | .null => true
  | .scalar _ => true
  | .list inner => specGrammar inner
  | .struct fields => specGrammarFields fields
  | .other _ => false

/-- Field-list companion of `specGrammar`. -/
def specGrammarFields : List (String × DType) → Bool
  | [] => true
  | (_, t) :: rest => specGrammar t && specGrammarFields rest
end

mutual
/-- No `Null` placeholder occurs anywhere in the dtype tree (an opaque
`other` dtype has no visible children). -/
def noNull : DType → Bool
  | .null => false
  | .scalar _ => true
  | .list inner => noNull inner
  | .struct fields => noNullFields fields
  | .other _ => true

/-- Field-list companion of `noNull`. -/
def noNullFields : List (String × DType) → Bool
  | [] => true
  | (_, t) :: rest => noNull t && noNullFields rest
end

/-- Whether a dtype is a concrete scalar. -/
def DType.isScalar : DType → Bool
  | .scalar _ => true
  | _ => false

mutual
theorem noNull_resolve : ∀ (t d : DType), noNull d = true →
    noNull (_resolve_dtype t d) = true
  | .null, _, hd => hd
  | .scalar _, _, _ => rfl
  | .list inner, d, hd => by
      simp only [_resolve_dtype, noNull]
      exact noNull_resolve inner d hd
  | .struct fields, d, hd => by
      simp only [_resolve_dtype, noNull]
      exact noNullFields_resolve fields d hd
  | .other _, _, _ => rfl
theorem noNullFields_resolve : ∀ (fs : List (String × DType)) (d : DType),
    noNull d = true → noNullFields (_resolve_fields fs d) = true
  | [], _, _ => rfl
  | (n, t) :: rest, d, hd => by
      simp only [_resolve_fields, noNullFields, Bool.and_eq_true]
      exact ⟨noNull_resolve t d hd, noNullFields_resolve rest d hd⟩
end

mutual
theorem resolve_of_noNull : ∀ (t d : DType), noNull t = true →
    _resolve_dtype t d = t
  | .scalar _, _, _ => rfl
  | .list inner, d, h => by
      simp only [noNull] at h
      simp only [_resolve_dtype, resolve_of_noNull inner d h]
  | .struct fields, d, h => by
      simp only [noNull] at h
      simp only [_resolve_dtype, resolveFields_of_noNull fields d h]
  | .other _, _, _ => rfl
theorem resolveFields_of_noNull : ∀ (fs : List (String × DType)) (d : DType),
    noNullFields fs = true → _resolve_fields fs d = fs
  | [], _, _ => rfl
  | (n, t) :: rest, d, h => by
      simp only [noNullFields, Bool.and_eq_true] at h
      simp only [_resolve_fields, resolve_of_noNull t d h.1,
        resolveFields_of_noNull rest d h.2]
end

theorem resolve_idem (t d : DType) (hd : noNull d = true) :
    _resolve_dtype (_resolve_dtype t d) d = _resolve_dtype t d :=
  resolve_of_noNull _ d (noNull_resolve t d hd)

/-- One DataFrame column: its name, its declared dtype (an entry of
`df.schema`), and its row values.  `Json.null` is the null row value. -/
structure Column where
  name : String
  dtype : DType
  values : List Json

mutual
/-- Row-value validity: a value may sit in a column of the given dtype.
Nulls are valid under every dtype; scalars must match the scalar kind;
list and struct values must match elementwise / fieldwise. -/
def conforms : Json → DType → Bool
  | .null, _ => true
  | .num _, .scalar k => k == "Int64"
  | .str _, .scalar k => k == "String"
  | .bool _, .scalar k => k == "Boolean"
  | .arr xs, .list inner => conformsList xs inner
  | .obj kvs, .struct fields => conformsEntries kvs fields
  | _, _ => false

/-- Every element of a list value conforms to the inner dtype. -/
def conformsList : List Json → DType → Bool
  | [], _ => true
  | x :: xs, inner => conforms x inner && conformsList xs inner

/-- A struct value has exactly the struct dtype's fields, in order, each
value conforming to its field dtype. -/
def conformsEntries : List (String × Json) → List (String × DType) → Bool
  | [], [] => true
  | (n, v) :: kvs, (m, t) :: fs => n == m && conforms v t && conformsEntries kvs fs
  | _, _ => false
end

mutual
/-- Modelled from the spec: the external Polars per-column cast primitive
(`pl.col(name).cast(dtype)` inside `resolve_null_types`), which is library
code, not part of this repository.  At the granularity the resolver relies
on (§4.3: "a matching column-wise value cast", "mutates only type metadata,
never row values"): a null row value is preserved by any cast; a scalar
value cast to its own scalar kind is unchanged; list and struct casts apply
elementwise / fieldwise.  Conversions between distinct concrete kinds are
never requested by the resolver and are modelled as failure (`none`),
mirroring that a failed strict cast raises. -/
def castValue : Json → DType → Option Json
  | .null, _ => some .null
  | .num n, .scalar k => if k == "Int64" then some (.num n) else none
  | .str s, .scalar k => if k == "String" then some (.str s) else none
  | .bool b, .scalar k => if k == "Boolean" then some (.bool b) else none
  | .arr xs, .list inner =>
      match castList xs inner with
      | some ys => some (.arr ys)
      | none => none
  | .obj kvs, .struct fields =>
      match castEntries kvs fields with
      | some lvs => some (.obj lvs)
      | none => none
  | _, _ => none

/-- Elementwise `castValue` over a list value. -/
def castList : List Json → DType → Option (List Json)
  | [], _ => some []
  | x :: xs, inner =>
      match castValue x inner, castList xs inner with
      | some y, some ys => some (y :: ys)
      | _, _ => none

/-- Fieldwise `castValue` over a struct value. -/
def castEntries : List (String × Json) → List (String × DType) →
    Option (List (String × Json))
  | [], [] => some []
  | (_n, v) :: kvs, (m, t) :: fs =>
      match castValue v t, castEntries kvs fs with
      | some w, some lvs => some ((m, w) :: lvs)
      | _, _ => none
  | _, _ => none
end

mutual
theorem castValue_resolve_of_conforms : ∀ (v : Json) (t d : DType),
    conforms v t = true → castValue v (_resolve_dtype t d) = some v
  | .null, _, _, _ => rfl
  | .num n, .scalar k, d, h => by
      simp only [conforms] at h
      simp only [_resolve_dtype, castValue, h, if_pos]
  | .str s, .scalar k, d, h => by
      simp only [conforms] at h
      simp only [_resolve_dtype, castValue, h, if_pos]
  | .bool b, .scalar k, d, h => by
      simp only [conforms] at h
      simp only [_resolve_dtype, castValue, h, if_pos]
  | .arr xs, .list inner, d, h => by
      simp only [conforms] at h
      simp only [_resolve_dtype, castValue,
        castList_resolve_of_conforms xs inner d h]
  | .obj kvs, .struct fields, d, h => by
      simp only [conforms] at h
      simp only [_resolve_dtype, castValue,
        castEntries_resolve_of_conforms kvs fields d h]
theorem castList_resolve_of_conforms : ∀ (xs : List Json) (inner d : DType),
    conformsList xs inner = true →
    castList xs (_resolve_dtype inner d) = some xs
  | [], _, _, _ => rfl
  | x :: xs, inner, d, h => by
      simp only [conformsList, Bool.and_eq_true] at h
      simp only [castList, castValue_resolve_of_conforms x inner d h.1,
        castList_resolve_of_conforms xs inner d h.2]
theorem castEntries_resolve_of_conforms :
    ∀ (kvs : List (String × Json)) (fs : List (String × DType)) (d : DType),
    conformsEntries kvs fs = true →
    castEntries kvs (_resolve_fields fs d) = some kvs
  | [], [], _, _ => rfl
  | (n, v) :: kvs, (m, t) :: fs, d, h => by
      simp only [conformsEntries, Bool.and_eq_true, beq_iff_eq] at h
      simp only [_resolve_fields, castEntries,
        castValue_resolve_of_conforms v t d h.1.2,
        castEntries_resolve_of_conforms kvs fs d h.2, h.1.1]
end

/-- The `casts` dictionary built by `resolve_null_types` (schema.py lines
29–33): one entry per column whose resolved dtype differs from its declared
dtype, in column order.  (Polars column names are unique, so a list of
pairs models the Python dict faithfully.) -/
def resolveCasts (df : List Column) (default : DType) : List (String × DType) :=
  df.filterMap fun c =>
    if _resolve_dtype c.dtype default ≠ c.dtype then
      some (c.name, _resolve_dtype c.dtype default)
    else none

/-- One cast expression `pl.col(name).cast(dtype)` applied to its column:
the column's values are cast to the target dtype (which becomes the new
declared dtype); `none` models a raising cast. -/
def castColumn (c : Column) (target : DType) : Option Column :=
  match castList c.values target with
  | some vs => some ⟨c.name, target, vs⟩
  | none => none

/-- Embeds `resolve_null_types` (schema.py lines 16–40): build the `casts`
dict; if it is empty return the DataFrame unchanged; otherwise
`with_columns` replaces exactly the named columns by their cast versions,
leaving every other column untouched. -/
def resolve_null_types (df : List Column) (default : DType) :
    Option (List Column) :=
  if (resolveCasts df default).isEmpty then some df
  else df.mapM fun c =>
    match (resolveCasts df default).lookup c.name with
    | some t => castColumn c t
    | none => some c

/-- An Arrow data type, as inspected by `dataframe_to_arrow` in
`src/json_to_iceberg/schema.py`: timestamps carry their unit ("ns", "us",
…) and optional timezone; list and struct types carry their nested types;
`prim` covers every other Arrow type by name.  `pa.types.is_timestamp` is
true exactly on the `timestamp` constructor. -/
inductive ArrowType where
  | timestamp : String → Option String → ArrowType
  | list : ArrowType → ArrowType
  | struct : List (String × ArrowType) → ArrowType
  | prim : String → ArrowType

/-- Python's `pa.types.is_timestamp(t)`. -/
def ArrowType.isTimestamp : ArrowType → Bool
  | .timestamp _ _ => true
  | _ => false

/-- One field of an Arrow schema. -/
structure ArrowField where
  name : String
  type : ArrowType

/-- The loop body of `dataframe_to_arrow` (schema.py lines 75–80): a field
whose own type is a timestamp with unit `"ns"` is replaced by
`field.with_type(pa.timestamp("us", tz=field.type.tz))`; every other field
is appended unchanged. -/
def fixTimestampField (f : ArrowField) : ArrowField :=
  match f.type with
  | .timestamp unit tz => if unit = "ns" then ⟨f.name, .timestamp "us" tz⟩ else f
  | _ => f

/-- Whether a field triggers `needs_cast` in the loop. -/
def isNsTimestampField (f : ArrowField) : Bool :=
  match f.type with
  | .timestamp unit _ => unit == "ns"
  | _ => false

/-- Embeds the schema rewrite of `dataframe_to_arrow` (schema.py lines
64–85), operating on the Arrow schema produced by the external
`df.to_arrow()`: rebuild the field list with nanosecond timestamp fields
downgraded to microseconds, and cast the table to the new schema only when
some field changed.  (The cast itself is an external Arrow primitive; the
claims proved about this function concern the schema.) -/
def dataframe_to_arrow (schema : List ArrowField) : List ArrowField :=
  if schema.any isNsTimestampField then schema.map fixTimestampField else schema

/-- Python dict assignment `flat[k] = v`: if the key is present its value is
overwritten in place (the key keeps its original position); otherwise the
pair is appended, preserving insertion order. -/
def dictInsert (m : List (String × Json)) (k : String) (v : Json) :
    List (String × Json) :=
  if m.any (fun p => p.1 == k) then
    m.map (fun p => if p.1 == k then (k, v) else p)
  else m ++ [(k, v)]

/-- Python `flat.update(entries)`: left-to-right dict assignment of every
entry. -/
def dictUpdate (m : List (String × Json)) (entries : List (String × Json)) :
    List (String × Json) :=
  entries.foldl (fun acc p => dictInsert acc p.1 p.2) m

mutual
/-- The loop of `flatten_record` (flatten.py lines 24–32), with the `flat`
dict threaded as an accumulator: for each entry build
`full_key = f"{pfx}{sep}{key}" if pfx else key` and process the value via
`flattenStep`. -/
def flattenGo (sep pfx : String) (flat : List (String × Json)) :
    List (String × Json) → List (String × Json)
  | [] => flat
  | (k, v) :: rest =>
    flattenGo sep pfx (flattenStep sep (if pfx == "" then k else pfx ++ sep ++ k) flat v) rest

/-- The loop body of `flatten_record` for a single entry value: a dict value
is recursively flattened under `fullKey` and merged by `flat.update`; any
other value (scalar, `None`, list of scalars, list of dicts) is stored
verbatim at `fullKey`. -/
def flattenStep (sep fullKey : String) (flat : List (String × Json)) :
    Json → List (String × Json)
  | .obj kvs => dictUpdate flat (flattenGo sep fullKey [] kvs)
  | v => dictInsert flat fullKey v
end

/-- Embeds `flatten_record` (flatten.py lines 12–32): flatten one nested
record into a flat insertion-ordered mapping, starting from the empty
`flat` dict. -/
def flatten_record (record : List (String × Json)) (sep pfx : String) :
    List (String × Json) :=
  flattenGo sep pfx [] record

mutual
/-- Modelled from the spec (§4.2, the claim's reading of the flattener):
recurse into nested mappings only, emit each leaf as
`parentPrefix + separator + key` (bare key at depth 0), store sequence and
null values verbatim, and list every emitted pair in encounter order
(collisions between distinct source paths are *not* merged here — this is
the specification-side description `flatten_record` is compared against). -/
def flatten_spec (sep : String) : List (String × Json) → List (String × Json)
  | [] => []
  | (k, v) :: rest => flattenSpecStep sep k v ++ flatten_spec sep rest

/-- Specification-side flattening of one entry: a nested mapping contributes
its own flattening with the parent key prepended (`parent ++ sep ++ key`);
anything else contributes itself verbatim under its bare key. -/
def flattenSpecStep (sep k : String) : Json → List (String × Json)
  | .obj kvs => (flatten_spec sep kvs).map (fun p => (k ++ sep ++ p.1, p.2))
  | v => [(k, v)]
end

mutual
/-- Every key of the record, at every object-nesting depth, is a non-empty
string (sequence values are stored verbatim, so keys inside arrays are not
relevant). -/
def keysNonempty : List (String × Json) → Bool
  | [] => true
  | (k, v) :: rest => (k != "") && keyValNonempty v && keysNonempty rest

/-- Companion of `keysNonempty` for a single entry value: only nested
mappings constrain further keys. -/
def keyValNonempty : Json → Bool
  | .obj kvs => keysNonempty kvs
  | _ => true
end

/-- The scan loop of `_detect_records` (flatten.py lines 48–54): return the
first dict value that is a non-empty list whose first element is a dict.
The Python guard is `isinstance(value, list) and value and
isinstance(value[0], dict)`. -/
def detectScan : List (String × Json) → Option (List Json)
  | [] => none
  | (_, v) :: rest =>
    match v with
    | .arr (y :: ys) => if y.isObj then some (y :: ys) else detectScan rest
    | _ => detectScan rest

/-- Embeds `_detect_records` (flatten.py lines 35–58): a list root is
returned unchanged; for a dict root, the first non-empty list-of-dicts
value wins, else the whole dict becomes a one-record list; any other root
raises `ValueError(f"Unexpected JSON root type: {type(raw).__name__}")`,
modelled as `Except.error` carrying the message. -/
def _detect_records (raw : Json) : Except String (List Json) :=
  match raw with
  | .arr xs => .ok xs
  | .obj kvs =>
    match detectScan kvs with
    | some recs => .ok recs
    | none => .ok [.obj kvs]
  | j => .error ("Unexpected JSON root type: " ++ j.typeName)

/-- The spec's "non-empty sequence whose first element is a mapping"
predicate on a single value, used to state the first-match property. -/
def isRecordArray : Json → Bool
  | .arr (y :: _) => y.isObj
  | _ => false

theorem fixTimestampField_of_not_ns (f : ArrowField)
    (h : isNsTimestampField f = false) : fixTimestampField f = f := by
  obtain ⟨n, t⟩ := f
  cases t with
  | timestamp unit tz =>
      have h2 : unit ≠ "ns" := by simpa [isNsTimestampField] using h
      simp [fixTimestampField, h2]
  | list inner => rfl
  | struct fields => rfl
  | prim p => rfl

theorem map_fixTimestampField_of_no_ns (s : List ArrowField)
    (h : ∀ f ∈ s, isNsTimestampField f = false) :
    s.map fixTimestampField = s := by
  induction s with
  | nil => rfl
  | cons f rest ih =>
      simp only [List.map_cons]
      rw [fixTimestampField_of_not_ns f (h f (List.mem_cons_self f rest)),
        ih (fun g hg => h g (List.mem_cons_of_mem f hg))]

theorem fixTimestampField_of_not_timestamp (f : ArrowField)
    (h : f.type.isTimestamp = false) : fixTimestampField f = f := by
  apply fixTimestampField_of_not_ns
  obtain ⟨n, t⟩ := f
  cases t with
  | timestamp unit tz => simp [ArrowType.isTimestamp] at h
  | list inner => rfl
  | struct fields => rfl
  | prim p => rfl

theorem fixTimestampField_idem (f : ArrowField) :
    fixTimestampField (fixTimestampField f) = fixTimestampField f := by
  obtain ⟨n, t⟩ := f
  cases t with
  | timestamp unit tz =>
      by_cases h : unit = "ns"
      · subst h; simp [fixTimestampField]
      · simp [fixTimestampField, h]
  | list inner => rfl
  | struct fields => rfl
  | prim p => rfl

theorem dataframe_to_arrow_eq_map (s : List ArrowField) :
    dataframe_to_arrow s = s.map fixTimestampField := by
  unfold dataframe_to_arrow
  cases hany : s.any isNsTimestampField with
  | true => simp
  | false =>
      have h2 : ∀ f ∈ s, isNsTimestampField f = false := by
        intro f hf
        cases hb : isNsTimestampField f
        · rfl
        · have h3 := List.any_eq_true.mpr ⟨f, hf, hb⟩
          rw [hany] at h3
          exact (Bool.false_ne_true h3).elim
      simp [map_fixTimestampField_of_no_ns s h2]

/-- C8.  The format bridge downgrades every nanosecond-resolution timestamp
column to microsecond resolution while preserving its timezone metadata, it
rewrites the schema exactly fieldwise, it is idempotent, and a column
already at microsecond resolution is left unchanged (a no-op). -/
theorem dataframe_to_arrow_timestamp_downgrade :
    (∀ (s : List ArrowField), dataframe_to_arrow s = s.map fixTimestampField)
    ∧ (∀ (n : String) (tz : Option String),
        fixTimestampField ⟨n, .timestamp "ns" tz⟩ = ⟨n, .timestamp "us" tz⟩)
    ∧ (∀ (n : String) (tz : Option String),
        fixTimestampField ⟨n, .timestamp "us" tz⟩ = ⟨n, .timestamp "us" tz⟩)
    ∧ (∀ (s : List ArrowField),
        dataframe_to_arrow (dataframe_to_arrow s) = dataframe_to_arrow s) := by
  refine ⟨dataframe_to_arrow_eq_map, fun n tz => rfl, fun n tz => by simp [fixTimestampField], fun s => ?_⟩
  rw [dataframe_to_arrow_eq_map, dataframe_to_arrow_eq_map, List.map_map]
  exact List.map_congr_left fun f _ => fixTimestampField_idem f

/-- C10.  The timestamp downgrade applies only to top-level columns: the
bridge preserves the schema's length, and any field whose own type is not a
timestamp — in particular a `List` or `Struct` field with a nanosecond
timestamp nested inside — is left exactly as it was. -/
theorem dataframe_to_arrow_nested_untouched (s : List ArrowField) :
    (dataframe_to_arrow s).length = s.length
    ∧ ∀ (i : Nat) (h : i < s.length) (h2 : i < (dataframe_to_arrow s).length),
        (s.get ⟨i, h⟩).type.isTimestamp = false →
        (dataframe_to_arrow s).get ⟨i, h2⟩ = s.get ⟨i, h⟩ := by
  rw [dataframe_to_arrow_eq_map]
  refine ⟨List.length_map _ _, fun i h h2 hts => ?_⟩
  rw [List.get_map]
  exact fixTimestampField_of_not_timestamp _ hts

theorem dataframe_to_arrow_nested_untouched_witness :
    (dataframe_to_arrow
        [⟨"evts", ArrowType.list (ArrowType.timestamp "ns" (some "UTC"))⟩,
         ⟨"rec", ArrowType.struct [("at", ArrowType.timestamp "ns" none)]⟩]).get
      ⟨0, by decide⟩
      = ⟨"evts", ArrowType.list (ArrowType.timestamp "ns" (some "UTC"))⟩ :=
  (dataframe_to_arrow_nested_untouched
    [⟨"evts", ArrowType.list (ArrowType.timestamp "ns" (some "UTC"))⟩,
     ⟨"rec", ArrowType.struct [("at", ArrowType.timestamp "ns" none)]⟩]).2
    0 (by decide) (by decide) rfl

/-- C9.  Flattened keys can collide: a record holding both a literal key
`"a.b"` and a nested path `a → b` flattening to the same composite key
produces a single entry for that key, the later-iterated source path's
value overwriting the earlier one. -/
theorem flatten_record_collision_overwrite :
    flatten_record [("a.b", Json.num 1), ("a", Json.obj [("b", Json.num 2)])] "." ""
      = [("a.b", Json.num 2)] := by decide

/-- C2 (counterexample).  At a concrete dtype outside the recognised shapes
(a fixed-size `Array`, modelled opaquely), the resolver silently returns the
dtype unchanged instead of failing: `_resolve_dtype` is a total function
into dtypes and defines no `UnsupportedSchemaShape` error at all. -/
theorem resolve_dtype_unrecognized_cex :
    _resolve_dtype (DType.other "Array") _DEFAULT_TYPE = DType.other "Array" := rfl

/-- C2 (amended).  Every dtype shape the resolver does not recognise (not
`Null`, `List`, or `Struct`, and not a concrete scalar) falls through the
final `return dtype` and is passed through unchanged; resolution never
raises. -/
theorem resolve_dtype_unrecognized_passthrough (tag : String) (d : DType) :
    _resolve_dtype (DType.other tag) d = DType.other tag := rfl

/-- C1.  The resolver rewrites depth-first: a `Null` placeholder becomes the
default scalar type; `List(inner)` is reconstructed as `List` of the
resolved inner type; `Struct(fields)` is reconstructed with every field's
type resolved, field names and order preserved; and on any tree of the
spec's grammar no placeholder remains anywhere after resolution. -/
theorem resolve_dtype_structural_rewrite (d : DType) (hd : d.isScalar = true) :
    _resolve_dtype .null d = d
    ∧ (∀ (inner : DType),
        _resolve_dtype (.list inner) d = .list (_resolve_dtype inner d))
    ∧ (∀ (fields : List (String × DType)),
        _resolve_dtype (.struct fields) d
          = .struct (fields.map (fun f => (f.1, _resolve_dtype f.2 d))))
    ∧ (∀ (t : DType), specGrammar t = true →
        noNull (_resolve_dtype t d) = true) := by
  have hnn : noNull d = true := by
    cases d with
    | scalar k => rfl
    | null => exact absurd hd (by simp [DType.isScalar])
    | list inner => exact absurd hd (by simp [DType.isScalar])
    | struct fields => exact absurd hd (by simp [DType.isScalar])
    | other tag => exact absurd hd (by simp [DType.isScalar])
  refine ⟨rfl, fun inner => rfl, fun fields => ?_, fun t _ => noNull_resolve t d hnn⟩
  simp only [_resolve_dtype, _resolve_fields_eq_map]

theorem resolve_dtype_structural_rewrite_witness :
    _resolve_dtype .null (DType.scalar "String") = DType.scalar "String"
    ∧ _resolve_dtype (.list (.struct [("a", .null), ("b", .scalar "Int64")]))
        (DType.scalar "String")
      = .list (.struct [("a", DType.scalar "String"), ("b", DType.scalar "Int64")])
    ∧ noNull (_resolve_dtype (.list (.struct [("a", .null)])) (DType.scalar "String"))
      = true :=
  ⟨(resolve_dtype_structural_rewrite (DType.scalar "String") rfl).1,
   by decide,
   (resolve_dtype_structural_rewrite (DType.scalar "String") rfl).2.2.2
     (.list (.struct [("a", .null)])) rfl⟩

theorem detectScan_eq_find (kvs : List (String × Json)) :
    detectScan kvs
      = match (kvs.map Prod.snd).find? isRecordArray with
        | some (Json.arr ys) => some ys
        | _ => none := by
  induction kvs with
  | nil => rfl
  | cons kv rest ih =>
      obtain ⟨n, v⟩ := kv
      cases v with
      | arr xs =>
          cases xs with
          | nil => simpa [detectScan, List.find?, isRecordArray] using ih
          | cons y ys =>
              cases hy : y.isObj
              · simpa [detectScan, List.find?, isRecordArray, hy] using ih
              · simp [detectScan, List.find?, isRecordArray, hy]
      | null => simpa [detectScan, List.find?, isRecordArray] using ih
      | bool b => simpa [detectScan, List.find?, isRecordArray] using ih
      | num m => simpa [detectScan, List.find?, isRecordArray] using ih
      | str s => simpa [detectScan, List.find?, isRecordArray] using ih
      | obj lvs => simpa [detectScan, List.find?, isRecordArray] using ih

/-- C5.  For a mapping root, the detector scans the values in insertion
order and returns the first one that is a non-empty sequence whose first
element is a mapping (`find?` over the values); if no value matches, the
whole root mapping becomes a single one-record sequence. -/
theorem detect_records_first_match (kvs : List (String × Json)) :
    (∀ (ys : List Json),
        (kvs.map Prod.snd).find? isRecordArray = some (Json.arr ys) →
        _detect_records (Json.obj kvs) = .ok ys)
    ∧ ((kvs.map Prod.snd).find? isRecordArray = none →
        _detect_records (Json.obj kvs) = .ok [Json.obj kvs]) := by
  constructor
  · intro ys hfind
    simp only [_detect_records, detectScan_eq_find, hfind]
  · intro hfind
    simp only [_detect_records, detectScan_eq_find, hfind]

theorem detect_records_first_match_witness :
    _detect_records (Json.obj
        [("meta", Json.obj [("page", Json.num 1)]),
         ("data", Json.arr [Json.obj [("a", Json.num 1)]]),
         ("more", Json.arr [Json.obj [("b", Json.num 2)]])])
      = .ok [Json.obj [("a", Json.num 1)]]
    ∧ _detect_records (Json.obj [("count", Json.num 1)])
      = .ok [Json.obj [("count", Json.num 1)]] :=
  ⟨(detect_records_first_match
      [("meta", Json.obj [("page", Json.num 1)]),
       ("data", Json.arr [Json.obj [("a", Json.num 1)]]),
       ("more", Json.arr [Json.obj [("b", Json.num 2)]])]).1
      [Json.obj [("a", Json.num 1)]] rfl,
   (detect_records_first_match [("count", Json.num 1)]).2 rfl⟩

/-- C6.  The detector returns a sequence root unchanged without validating
its elements; it fails exactly when the root is neither a sequence nor a
mapping, with an error naming the root's type; and it never fails on a
sequence or mapping root. -/
theorem detect_records_root_shape (xs : List Json) (j : Json) :
    _detect_records (Json.arr xs) = .ok xs
    ∧ (j.isArr = false → j.isObj = false →
        _detect_records j = .error ("Unexpected JSON root type: " ++ j.typeName))
    ∧ ((j.isArr || j.isObj) = true → ∃ r, _detect_records j = .ok r) := by
  refine ⟨rfl, ?_, ?_⟩
  · intro h1 h2
    cases j with
    | arr ys => exact absurd h1 (by simp [Json.isArr])
    | obj kvs => exact absurd h2 (by simp [Json.isObj])
    | null => rfl
    | bool b => rfl
    | num m => rfl
    | str s => rfl
  · intro h
    cases j with
    | arr ys => exact ⟨ys, rfl⟩
    | obj kvs =>
        cases hscan : detectScan kvs with
        | some recs => exact ⟨recs, by simp [_detect_records, hscan]⟩
        | none => exact ⟨[Json.obj kvs], by simp [_detect_records, hscan]⟩
    | null => simp [Json.isArr, Json.isObj] at h
    | bool b => simp [Json.isArr, Json.isObj] at h
    | num m => simp [Json.isArr, Json.isObj] at h
    | str s => simp [Json.isArr, Json.isObj] at h

theorem detect_records_root_shape_witness :
    _detect_records (Json.arr [Json.num 1, Json.str "x"])
      = .ok [Json.num 1, Json.str "x"]
    ∧ _detect_records (Json.str "not json")
      = .error ("Unexpected JSON root type: " ++ (Json.str "not json").typeName) :=
  ⟨(detect_records_root_shape [Json.num 1, Json.str "x"] (Json.str "not json")).1,
   (detect_records_root_shape [Json.num 1, Json.str "x"] (Json.str "not json")).2.1
     rfl rfl⟩

theorem list_map_eq_self {α : Type} (l : List α) (f : α → α)
    (h : ∀ a ∈ l, f a = a) : l.map f = l := by
  induction l with
  | nil => rfl
  | cons a l ih =>
      rw [List.map_cons, h a (List.mem_cons_self a l),
        ih (fun b hb => h b (List.mem_cons_of_mem a hb))]

theorem optionMapM_eq_some_map {α β : Type} (f : α → Option β) (g : α → β) :
    ∀ (l : List α), (∀ a ∈ l, f a = some (g a)) → l.mapM f = some (l.map g)
  | [], _ => rfl
  | a :: l, h => by
      rw [List.mapM_cons, h a (List.mem_cons_self a l),
        optionMapM_eq_some_map f g l (fun b hb => h b (List.mem_cons_of_mem a hb))]
      rfl

theorem optionMapM_some_get {α β : Type} (f : α → Option β) :
    ∀ (l : List α) (res : List β), l.mapM f = some res →
      res.length = l.length ∧
      ∀ (i : Nat) (h : i < l.length) (h2 : i < res.length),
        f (l.get ⟨i, h⟩) = some (res.get ⟨i, h2⟩)
  | [], res, h => by
      rw [List.mapM_nil] at h
      cases h
      exact ⟨rfl, fun i hi h2 => absurd hi (by simp)⟩
  | a :: l, res, h => by
      rw [List.mapM_cons] at h
      cases hfa : f a with
      | none => rw [hfa] at h; simp at h
      | some b =>
          rw [hfa] at h
          cases hml : l.mapM f with
          | none => rw [hml] at h; simp at h
          | some bs =>
              rw [hml] at h
              simp only [Option.bind_eq_bind, Option.bind_some, Option.some_bind,
                Option.pure_def, Option.some.injEq] at h
              subst h
              obtain ⟨ih1, ih2⟩ := optionMapM_some_get f l bs hml
              refine ⟨by simp [ih1], fun i hi h2 => ?_⟩
              cases i with
              | zero => simpa using hfa
              | succ n =>
                  have hn : n < l.length := by simpa using hi
                  have hn2 : n < bs.length := by simpa using h2
                  simpa using ih2 n hn hn2

theorem lookup_resolveCasts_of_not_mem (df : List Column) (d : DType)
    (name : String) (h : name ∉ df.map Column.name) :
    (resolveCasts df d).lookup name = none := by
  induction df with
  | nil => rfl
  | cons c rest ih =>
      have hne : name ≠ c.name := by
        intro he; exact h (by simp [he])
      have hrest : name ∉ rest.map Column.name := fun hm => h (by simp [hm])
      have hbeq : (name == c.name) = false := beq_eq_false_iff_ne.mpr hne
      by_cases he : _resolve_dtype c.dtype d = c.dtype
      · simp only [resolveCasts, List.filterMap_cons, he, ne_eq,
          not_true_eq_false, if_false]
        exact ih hrest
      · simp only [resolveCasts, List.filterMap_cons, ne_eq, he,
          not_false_eq_true, if_true, List.lookup, hbeq]
        exact ih hrest

theorem lookup_resolveCasts (df : List Column) (d : DType)
    (hnd : (df.map Column.name).Nodup) (c : Column) (hc : c ∈ df) :
    (resolveCasts df d).lookup c.name
      = if _resolve_dtype c.dtype d = c.dtype then none
        else some (_resolve_dtype c.dtype d) := by
  induction df with
  | nil => cases hc
  | cons c0 rest ih =>
      rw [List.map_cons, List.nodup_cons] at hnd
      obtain ⟨h0, hrest⟩ := hnd
      rcases List.mem_cons.mp hc with rfl | hmem
      · by_cases he : _resolve_dtype c.dtype d = c.dtype
        · simp only [resolveCasts, List.filterMap_cons, he, ne_eq,
            not_true_eq_false, if_false, if_pos he]
          exact lookup_resolveCasts_of_not_mem rest d c.name h0
        · simp [resolveCasts, List.filterMap_cons, he, List.lookup]
      · have hne : c.name ≠ c0.name := by
          intro he
          exact h0 (he ▸ List.mem_map_of_mem Column.name hmem)
        have hbeq : (c.name == c0.name) = false := beq_eq_false_iff_ne.mpr hne
        by_cases he0 : _resolve_dtype c0.dtype d = c0.dtype
        · simp only [resolveCasts, List.filterMap_cons, he0, ne_eq,
            not_true_eq_false, if_false]
          exact ih hrest hmem
        · simp only [resolveCasts, List.filterMap_cons, ne_eq, he0,
            not_false_eq_true, if_true, List.lookup, hbeq]
          exact ih hrest hmem

/-- C3.  Schema resolution is frame-minimal and idempotent: the `casts`
dict contains exactly the columns whose resolved dtype differs from their
declared dtype; a DataFrame whose schema is already fully resolved is
returned unchanged (no rewrite, no casts); dtype resolution is idempotent
for a placeholder-free default; and every column whose dtype the resolver
leaves unchanged passes through `with_columns` untouched. -/
theorem resolve_null_types_minimal_casts (df : List Column) (d : DType) :
    (∀ (n : String) (t : DType), (n, t) ∈ resolveCasts df d ↔
        ∃ c ∈ df, c.name = n ∧ _resolve_dtype c.dtype d = t ∧ t ≠ c.dtype)
    ∧ ((∀ c ∈ df, _resolve_dtype c.dtype d = c.dtype) →
        resolve_null_types df d = some df)
    ∧ (noNull d = true → ∀ (t : DType),
        _resolve_dtype (_resolve_dtype t d) d = _resolve_dtype t d)
    ∧ ((df.map Column.name).Nodup → ∀ (df' : List Column),
        resolve_null_types df d = some df' →
        ∀ (i : Nat) (h : i < df.length) (h2 : i < df'.length),
          _resolve_dtype (df.get ⟨i, h⟩).dtype d = (df.get ⟨i, h⟩).dtype →
          df'.get ⟨i, h2⟩ = df.get ⟨i, h⟩) := by
  refine ⟨fun n t => ?_, fun hall => ?_, fun hd t => resolve_idem t d hd, ?_⟩
  · simp only [resolveCasts, List.mem_filterMap]
    constructor
    · rintro ⟨c, hcmem, hf⟩
      by_cases hcond : _resolve_dtype c.dtype d ≠ c.dtype
      · rw [if_pos hcond] at hf
        have hpair := Option.some.inj hf
        rw [Prod.mk.injEq] at hpair
        obtain ⟨h1, h2⟩ := hpair
        exact ⟨c, hcmem, h1, h2, h2 ▸ hcond⟩
      · rw [if_neg hcond] at hf
        cases hf
    · rintro ⟨c, hcmem, hname, hres, hne⟩
      refine ⟨c, hcmem, ?_⟩
      rw [if_pos (hres ▸ hne), hname, hres]
  · have hcasts : resolveCasts df d = [] := by
      simp only [resolveCasts, List.filterMap_eq_nil_iff]
      intro c hc
      simp [hall c hc]
    unfold resolve_null_types
    rw [hcasts]
    rfl
  · intro hnd df' hres i h h2 heq
    unfold resolve_null_types at hres
    by_cases hemp : (resolveCasts df d).isEmpty
    · rw [if_pos hemp] at hres
      cases hres
      rfl
    · rw [if_neg hemp] at hres
      obtain ⟨hlen, hget⟩ := optionMapM_some_get _ df df' hres
      have hi := hget i h h2
      rw [lookup_resolveCasts df d hnd _ (df.get_mem i h), if_pos heq] at hi
      exact (Option.some.inj hi).symm

theorem resolve_null_types_minimal_casts_witness :
    ("bad", DType.scalar "String")
      ∈ resolveCasts
          [⟨"ok", DType.scalar "Int64", [Json.num 1]⟩,
           ⟨"bad", DType.null, [Json.null]⟩] _DEFAULT_TYPE
    ∧ resolve_null_types
        [⟨"x", DType.scalar "Int64", [Json.num 1, Json.num 2]⟩,
         ⟨"y", DType.scalar "String", [Json.str "a", Json.str "b"]⟩]
        _DEFAULT_TYPE
      = some
          [⟨"x", DType.scalar "Int64", [Json.num 1, Json.num 2]⟩,
           ⟨"y", DType.scalar "String", [Json.str "a", Json.str "b"]⟩]
    ∧ ([⟨"ok", DType.scalar "Int64", [Json.num 1]⟩,
        ⟨"bad", DType.scalar "String", [Json.null]⟩] : List Column).get ⟨0, by decide⟩
      = ([⟨"ok", DType.scalar "Int64", [Json.num 1]⟩,
          ⟨"bad", DType.null, [Json.null]⟩] : List Column).get ⟨0, by decide⟩ :=
  ⟨((resolve_null_types_minimal_casts
      [⟨"ok", DType.scalar "Int64", [Json.num 1]⟩,
       ⟨"bad", DType.null, [Json.null]⟩] _DEFAULT_TYPE).1 "bad"
      (DType.scalar "String")).mpr
      ⟨⟨"bad", DType.null, [Json.null]⟩,
       List.Mem.tail _ (List.Mem.head _), rfl, rfl, by decide⟩,
   (resolve_null_types_minimal_casts
      [⟨"x", DType.scalar "Int64", [Json.num 1, Json.num 2]⟩,
       ⟨"y", DType.scalar "String", [Json.str "a", Json.str "b"]⟩]
      _DEFAULT_TYPE).2.1 (by decide),
   (resolve_null_types_minimal_casts
      [⟨"ok", DType.scalar "Int64", [Json.num 1]⟩,
       ⟨"bad", DType.null, [Json.null]⟩] _DEFAULT_TYPE).2.2.2
      (by decide) _ rfl 0 (by decide) (by decide) rfl⟩

/-- C4.  Resolution changes only declared column types, never row values:
for a well-formed DataFrame (unique column names, row values conforming to
their declared dtypes — invariants of every Polars frame), the resolver
returns exactly the same columns with the same value sequences (hence the
same row counts), only the declared dtypes rewritten. -/
theorem resolve_null_types_preserves_values (df : List Column) (d : DType)
    (hnd : (df.map Column.name).Nodup)
    (hcf : (df.all fun c => conformsList c.values c.dtype) = true) :
    resolve_null_types df d
      = some (df.map fun c => ⟨c.name, _resolve_dtype c.dtype d, c.values⟩) := by
  have hconf : ∀ c ∈ df, conformsList c.values c.dtype = true := by
    rw [List.all_eq_true] at hcf
    exact fun c hc => hcf c hc
  unfold resolve_null_types
  by_cases hemp : (resolveCasts df d).isEmpty
  · rw [if_pos hemp]
    have hnil : resolveCasts df d = [] := List.isEmpty_iff.mp hemp
    have hall : ∀ c ∈ df, _resolve_dtype c.dtype d = c.dtype := by
      intro c hc
      by_contra hne
      have hmem : (c.name, _resolve_dtype c.dtype d) ∈ resolveCasts df d :=
        List.mem_filterMap.mpr ⟨c, hc, by simp [hne]⟩
      rw [hnil] at hmem
      cases hmem
    rw [list_map_eq_self df _ (fun c hc => by rw [hall c hc])]
  · rw [if_neg hemp]
    apply optionMapM_eq_some_map
    intro c hc
    rw [lookup_resolveCasts df d hnd c hc]
    by_cases he : _resolve_dtype c.dtype d = c.dtype
    · rw [if_pos he]
      show some c = _
      rw [he]
    · rw [if_neg he]
      show castColumn c (_resolve_dtype c.dtype d) = _
      unfold castColumn
      rw [castList_resolve_of_conforms c.values c.dtype d (hconf c hc)]

theorem resolve_null_types_preserves_values_witness :
    resolve_null_types [⟨"a", DType.null, [Json.null, Json.null, Json.null]⟩]
        _DEFAULT_TYPE
      = some [⟨"a", DType.scalar "String", [Json.null, Json.null, Json.null]⟩] :=
  (resolve_null_types_preserves_values
    [⟨"a", DType.null, [Json.null, Json.null, Json.null]⟩] _DEFAULT_TYPE
    (by decide) (by decide)).trans rfl

/-- The key built by one `flatten_record` loop step:
`f"{pfx}{sep}{key}" if pfx else key`. -/
def joinKey (pfx sep k : String) : String :=
  if pfx == "" then k else pfx ++ sep ++ k

theorem str_append_ne_empty (a b : String) (h : a ≠ "") : a ++ b ≠ "" := by
  intro he
  apply h
  have hlen : (a ++ b).length = 0 := by rw [he]; rfl
  rw [String.length_append] at hlen
  have ha : a.length = 0 := by omega
  have hd : a.data = [] := List.length_eq_zero.mp ha
  cases a
  simp_all

theorem joinKey_assoc (sep pfx k s : String) (hk : k ≠ "") :
    joinKey pfx sep (k ++ sep ++ s) = joinKey (joinKey pfx sep k) sep s := by
  unfold joinKey
  cases hp : pfx == "" with
  | true =>
      have hkb : (k == "") = false := beq_eq_false_iff_ne.mpr hk
      simp [hkb]
  | false =>
      have hpne : pfx ≠ "" := by simpa using hp
      have hfull : pfx ++ sep ++ k ≠ "" :=
        str_append_ne_empty (pfx ++ sep) k (str_append_ne_empty pfx sep hpne)
      have hfb : ((pfx ++ sep ++ k) == "") = false := beq_eq_false_iff_ne.mpr hfull
      simp only [Bool.false_eq_true, if_false]
      rw [hfb]
      simp [String.append_assoc]

theorem dictInsert_of_fresh (m : List (String × Json)) (k : String) (v : Json)
    (h : k ∉ m.map Prod.fst) : dictInsert m k v = m ++ [(k, v)] := by
  unfold dictInsert
  have hany : (m.any fun p => p.1 == k) = false := by
    rw [List.any_eq_false]
    intro p hp
    simp only [beq_iff_eq]
    intro he
    exact h (he ▸ List.mem_map_of_mem Prod.fst hp)
  simp [hany]

theorem dictUpdate_of_fresh :
    ∀ (es m : List (String × Json)),
      (m.map Prod.fst ++ es.map Prod.fst).Nodup → dictUpdate m es = m ++ es
  | [], m, _ => by simp [dictUpdate]
  | (k, v) :: es, m, h => by
      have hk : k ∉ m.map Prod.fst := by
        rw [List.nodup_append] at h
        intro hmem
        exact h.2.2 hmem (by simp)
      have h2 : ((m ++ [(k, v)]).map Prod.fst ++ es.map Prod.fst).Nodup := by
        rw [List.map_append, List.append_assoc]
        simpa using h
      have hrec := dictUpdate_of_fresh es (m ++ [(k, v)]) h2
      unfold dictUpdate at hrec ⊢
      rw [List.foldl_cons]
      simp only at hrec ⊢
      rw [dictInsert_of_fresh m k v hk, hrec, List.append_assoc]
      rfl

theorem map_fst_pairkey (f : String → String) (L : List (String × Json)) :
    (L.map (fun p => (f p.1, p.2))).map Prod.fst = L.map (fun p => f p.1) := by
  rw [List.map_map]
  exact List.map_congr_left fun p _ => rfl

theorem spec_map_join (sep pfx k : String) (hk : k ≠ "") (L : List (String × Json)) :
    (L.map (fun p => (k ++ sep ++ p.1, p.2))).map (fun p => (joinKey pfx sep p.1, p.2))
      = L.map (fun p => (joinKey (joinKey pfx sep k) sep p.1, p.2)) := by
  rw [List.map_map]
  exact List.map_congr_left fun p _ => by
    simp only [Function.comp_apply]
    rw [joinKey_assoc sep pfx k p.1 hk]

theorem spec_mapkey_join (sep pfx k : String) (hk : k ≠ "") (L : List (String × Json)) :
    (L.map (fun p => (k ++ sep ++ p.1, p.2))).map (fun p => joinKey pfx sep p.1)
      = L.map (fun p => joinKey (joinKey pfx sep k) sep p.1) := by
  rw [List.map_map]
  exact List.map_congr_left fun p _ => by
    simp only [Function.comp_apply]
    rw [joinKey_assoc sep pfx k p.1 hk]

theorem flattenStep_not_obj (sep fullKey : String) (flat : List (String × Json))
    (v : Json) (h : v.isObj = false) :
    flattenStep sep fullKey flat v = dictInsert flat fullKey v := by
  cases v with
  | obj kvs => exact Bool.noConfusion h
  | null => rfl
  | bool b => rfl
  | num n => rfl
  | str s => rfl
  | arr xs => rfl

theorem flattenSpecStep_not_obj (sep k : String) (v : Json) (h : v.isObj = false) :
    flattenSpecStep sep k v = [(k, v)] := by
  cases v with
  | obj kvs => exact Bool.noConfusion h
  | null => rfl
  | bool b => rfl
  | num n => rfl
  | str s => rfl
  | arr xs => rfl

theorem flattenGo_spec (sep : String) :
    ∀ (l : List (String × Json)) (pfx : String) (flat : List (String × Json)),
      keysNonempty l = true →
      (flat.map Prod.fst
        ++ (flatten_spec sep l).map (fun p => joinKey pfx sep p.1)).Nodup →
      flattenGo sep pfx flat l
        = flat ++ (flatten_spec sep l).map (fun p => (joinKey pfx sep p.1, p.2))
  | [], pfx, flat, _, _ => by simp [flattenGo, flatten_spec]
  | (k, v) :: rest, pfx, flat, hk, hnd => by
      have hk2 : ((k != "") = true ∧ keyValNonempty v = true)
          ∧ keysNonempty rest = true := by
        simpa [keysNonempty, Bool.and_eq_true] using hk
      obtain ⟨⟨hkne0, hkv⟩, hkrest⟩ := hk2
      have hkne : k ≠ "" := by simpa using hkne0
      have hjoin : (if pfx == "" then k else pfx ++ sep ++ k) = joinKey pfx sep k := rfl
      simp only [flattenGo]
      rw [hjoin]
      cases hv : v.isObj with
      | true =>
          cases v with
          | obj kvs =>
              have hkv2 : keysNonempty kvs = true := by
                simpa [keyValNonempty] using hkv
              simp only [flattenStep]
              simp only [flatten_spec, flattenSpecStep, List.map_append] at hnd ⊢
              rw [spec_map_join sep pfx k hkne (flatten_spec sep kvs)]
              rw [spec_mapkey_join sep pfx k hkne (flatten_spec sep kvs)] at hnd
              have hinnernd : (([] : List (String × Json)).map Prod.fst
                  ++ (flatten_spec sep kvs).map
                      (fun p => joinKey (joinKey pfx sep k) sep p.1)).Nodup := by
                simp only [List.map_nil, List.nil_append]
                refine List.Nodup.sublist ?_ hnd
                exact (List.sublist_append_left _ _).trans (List.sublist_append_right _ _)
              have hinner := flattenGo_spec sep kvs (joinKey pfx sep k) [] hkv2 hinnernd
              rw [List.nil_append] at hinner
              rw [hinner]
              have hupdnd : (flat.map Prod.fst
                  ++ ((flatten_spec sep kvs).map
                      (fun p => (joinKey (joinKey pfx sep k) sep p.1, p.2))).map
                      Prod.fst).Nodup := by
                rw [map_fst_pairkey]
                refine List.Nodup.sublist ?_ hnd
                exact List.Sublist.append_left (List.sublist_append_left _ _) _
              rw [dictUpdate_of_fresh _ flat hupdnd]
              have houternd : ((flat ++ (flatten_spec sep kvs).map
                    (fun p => (joinKey (joinKey pfx sep k) sep p.1, p.2))).map Prod.fst
                  ++ (flatten_spec sep rest).map (fun p => joinKey pfx sep p.1)).Nodup := by
                rw [List.map_append, map_fst_pairkey, List.append_assoc]
                exact hnd
              have houter := flattenGo_spec sep rest pfx _ hkrest houternd
              rw [houter, List.append_assoc]
          | null => exact Bool.noConfusion hv
          | bool b => exact Bool.noConfusion hv
          | num n => exact Bool.noConfusion hv
          | str s => exact Bool.noConfusion hv
          | arr xs => exact Bool.noConfusion hv
      | false =>
          rw [flattenStep_not_obj sep (joinKey pfx sep k) flat v hv]
          simp only [flatten_spec, flattenSpecStep_not_obj sep k v hv, List.map_cons,
            List.map_nil, List.singleton_append, List.cons_append, List.nil_append]
            at hnd ⊢
          have hfresh : joinKey pfx sep k ∉ flat.map Prod.fst := by
            rw [List.nodup_append] at hnd
            intro hmem
            exact hnd.2.2 hmem (by simp)
          rw [dictInsert_of_fresh flat _ v hfresh]
          have houternd : ((flat ++ [(joinKey pfx sep k, v)]).map Prod.fst
              ++ (flatten_spec sep rest).map (fun p => joinKey pfx sep p.1)).Nodup := by
            rw [List.map_append, List.append_assoc]
            simpa using hnd
          have houter := flattenGo_spec sep rest pfx _ hkrest houternd
          rw [houter, List.append_assoc]
          simp
termination_by l => sizeOf l
decreasing_by all_goals (simp_wf; try subst_vars; try simp_arith; try omega)

/-- C7 (counterexample).  The claim fails as stated, on two counts.  With an
empty-string key at depth 0 (`{"": {"b": 1}}`), the nested key is emitted
bare (`"b"`), not as `parentPrefix + separator + key` (`".b"`), because the
code tests prefix truthiness, not depth.  And when two distinct source paths
flatten to the same key (`{"a.b": 1, "a": {"b": 2}}`), the earlier value is
overwritten rather than stored under its flattened key.  In both cases
`flatten_record` differs from the claim's description `flatten_spec`. -/
theorem flatten_record_vs_spec_cex :
    flatten_record [("", Json.obj [("b", Json.num 1)])] "." ""
      ≠ flatten_spec "." [("", Json.obj [("b", Json.num 1)])]
    ∧ flatten_record [("", Json.obj [("b", Json.num 1)])] "." "" = [("b", Json.num 1)]
    ∧ flatten_spec "." [("", Json.obj [("b", Json.num 1)])] = [(".b", Json.num 1)]
    ∧ flatten_record [("a.b", Json.num 1), ("a", Json.obj [("b", Json.num 2)])] "." ""
      ≠ flatten_spec "." [("a.b", Json.num 1), ("a", Json.obj [("b", Json.num 2)])] := by
  decide

/-- C7 (amended).  Provided every key at every object depth is a non-empty
string and no two source paths flatten to the same composite key, flattening
matches the specification exactly: it recurses only into nested mappings,
emits each output key as `parentPrefix + separator + key` with a bare key at
depth 0, stores sequence values and nulls verbatim without recursion, and
maps the empty record to the empty mapping. -/
theorem flatten_record_matches_spec (record : List (String × Json)) (sep : String)
    (hk : keysNonempty record = true)
    (hnd : ((flatten_spec sep record).map Prod.fst).Nodup) :
    flatten_record record sep "" = flatten_spec sep record := by
  have hnd2 : (([] : List (String × Json)).map Prod.fst
      ++ (flatten_spec sep record).map (fun p => joinKey "" sep p.1)).Nodup := by
    simp only [List.map_nil, List.nil_append]
    have hmk : (flatten_spec sep record).map (fun p => joinKey "" sep p.1)
        = (flatten_spec sep record).map Prod.fst :=
      List.map_congr_left fun p _ => by simp [joinKey]
    rw [hmk]
    exact hnd
  have h2 := flattenGo_spec sep record "" [] hk hnd2
  rw [List.nil_append] at h2
  have h3 : (flatten_spec sep record).map (fun p => (joinKey "" sep p.1, p.2))
      = flatten_spec sep record := by
    have hmk : (flatten_spec sep record).map (fun p => (joinKey "" sep p.1, p.2))
        = (flatten_spec sep record).map (fun p => p) :=
      List.map_congr_left fun p _ => by simp [joinKey]
    rw [hmk]
    exact List.map_id' (flatten_spec sep record)
  show flattenGo sep "" [] record = flatten_spec sep record
  rw [h2, h3]

theorem flatten_record_matches_spec_witness :
    flatten_record
        [("id", Json.num 1), ("meta", Json.obj [("name", Json.str "test")]),
         ("tags", Json.arr [Json.num 1, Json.num 2]), ("x", Json.null)] "." ""
      = flatten_spec "."
          [("id", Json.num 1), ("meta", Json.obj [("name", Json.str "test")]),
           ("tags", Json.arr [Json.num 1, Json.num 2]), ("x", Json.null)]
    ∧ flatten_record [] "." "" = flatten_spec "." [] :=
  ⟨flatten_record_matches_spec
      [("id", Json.num 1), ("meta", Json.obj [("name", Json.str "test")]),
       ("tags", Json.arr [Json.num 1, Json.num 2]), ("x", Json.null)] "."
      (by decide) (by decide),
   flatten_record_matches_spec [] "." (by decide) (by decide)⟩
